import Mathlib

/-!
Verification development for two text-transformation utilities:
a converter from traced SVG path data to TikZ drawing commands
(src/temp/svg2tikz.py) and a LaTeX macro preprocessor for Pandoc
(src/web/preprocess.py).

Conventions of the embedding:
* Real numbers are modelled by the rationals.  The Python code computes
  with binary floating point; every claim checked here is about values
  (such as 500 * 0.1 * 0.1 = 5) that are exact in both systems, and the
  scale-invariance claim is explicitly a statement about exact arithmetic.
  The Python literal 0.1 is modelled as the rational 1/10.
* Python exceptions are modelled by Option / explicit error constructors:
  a none result of a driver function models an uncaught exception
  aborting the run.
* Strings are modelled as lists of characters.  The Unicode-only parts of
  Python semantics (non-ASCII whitespace, underscore digit separators and
  the inf/nan float literals) are outside the model; no claim and no
  counterexample below depends on them.
-/

namespace SvgTikz

/-- Numeric value of a list of decimal digit characters, most significant
first, as Python int parsing of the digit run would produce. -/
def natVal (ds : List Char) : ℕ :=
  ds.foldl (fun a c => 10 * a + (c.toNat - 48)) 0

/-- Ten to an integer power, as a rational. -/
def decPow : ℤ → ℚ
  | .ofNat n => (10 : ℚ) ^ n
  | .negSucc n => 1 / (10 : ℚ) ^ (n + 1)

/-- ASCII whitespace, the characters stripped by Python float parsing and
matched by the regex class for whitespace. -/
def isSpaceCh (c : Char) : Bool :=
  c == ' ' || c == '\t' || c == '\n' || c == '\r' || c == '\x0b' || c == '\x0c'

/-- Split an optional leading sign character from a character list. -/
def signSplit (cs : List Char) : List Char × List Char :=
  match cs with
  | c :: r => if c == '+' || c == '-' then ([c], r) else ([], cs)
  | [] => ([], [])

/-- Leading sign as a rational factor, as Python float parsing consumes it. -/
def pySignQ (cs : List Char) : ℚ × List Char :=
  match cs with
  | c :: r =>
    if c == '+' then ((1 : ℚ), r)
    else if c == '-' then ((-1 : ℚ), r)
    else ((1 : ℚ), cs)
  | [] => ((1 : ℚ), [])

/-- Exponent suffix of a Python float literal: either the list is empty
(no exponent, value 0) or it is e/E, an optional sign and a nonempty digit
run reaching the end of the string; anything else is a parse error. -/
def pyExpVal (cs : List Char) : Option ℤ :=
  if cs.isEmpty then some 0
  else if cs.head? = some 'e' ∨ cs.head? = some 'E' then
    let s := signSplit cs.tail
    let es : ℤ := if s.1 = ['-'] then -1 else 1
    let ds := s.2.takeWhile Char.isDigit
    if ds.isEmpty then none
    else if (s.2.dropWhile Char.isDigit).isEmpty then some (es * natVal ds)
    else none
  else none

/-- Mantissa-and-exponent part of Python float parsing, applied after the
sign has been consumed.  Accepts digits, digits dot digits, digits dot,
or dot digits, followed by an optional exponent, with nothing left over. -/
def pyMant (sg : ℚ) (t1 : List Char) : Option ℚ :=
  let ds1 := t1.takeWhile Char.isDigit
  let r1 := t1.dropWhile Char.isDigit
  if r1.head? = some '.' then
    let r2 := r1.tail
    let ds2 := r2.takeWhile Char.isDigit
    let r3 := r2.dropWhile Char.isDigit
    if ds1.isEmpty ∧ ds2.isEmpty then none
    else
      (pyExpVal r3).map (fun e =>
        sg * ((natVal ds1 : ℚ) + (natVal ds2 : ℚ) / (10 : ℚ) ^ ds2.length) * decPow e)
  else
    if ds1.isEmpty then none
    else (pyExpVal r1).map (fun e => sg * (natVal ds1 : ℚ) * decPow e)

/-- Model of the Python builtin float applied to a string, for finite
decimal literals: strip ASCII whitespace, optional sign, mantissa with
optional fraction and exponent, entire string consumed.  Returns none
where Python raises ValueError. -/
def pyFloat (s : List Char) : Option ℚ :=
  let t := ((s.dropWhile isSpaceCh).reverse.dropWhile isSpaceCh).reverse
  let p := pySignQ t
  pyMant p.1 p.2

/-- The command letters of the tokenizing regular expression in
parse_svg_path (class MmCcLlHhVvZzSsQqTtAa). -/
def isCmdChar (c : Char) : Bool :=
  (['M', 'm', 'C', 'c', 'L', 'l', 'H', 'h', 'V', 'v',
    'Z', 'z', 'S', 's', 'Q', 'q', 'T', 't', 'A', 'a']).contains c

/-- Exponent part of the number alternative of the tokenizing regex,
which is the group of e/E, optional sign and a nonempty digit run; returns
the matched characters and the remainder, consuming nothing on failure. -/
def matchExp (cs : List Char) : List Char × List Char :=
  if cs.head? = some 'e' ∨ cs.head? = some 'E' then
    let s := signSplit cs.tail
    let ds := s.2.takeWhile Char.isDigit
    if ds.isEmpty then ([], cs)
    else (cs.take 1 ++ s.1 ++ ds, s.2.dropWhile Char.isDigit)
  else ([], cs)

/-- Leftmost match of the number alternative of the tokenizing regex
anchored at the head of the list: optional sign, then digits, digits dot
digits or dot digits (the shapes matched by the greedy pattern of
optional digits, optional dot and required digits), then an optional
exponent.  Returns the matched token text and the rest of the input. -/
def matchNum (cs : List Char) : Option (List Char × List Char) :=
  let s := signSplit cs
  let ds1 := s.2.takeWhile Char.isDigit
  let r1 := s.2.dropWhile Char.isDigit
  if r1.head? = some '.' then
    let r2 := r1.tail
    let ds2 := r2.takeWhile Char.isDigit
    if ds2.isEmpty then
      if ds1.isEmpty then none else some (s.1 ++ ds1, r1)
    else
      let ex := matchExp (r2.dropWhile Char.isDigit)
      some (s.1 ++ ds1 ++ '.' :: ds2 ++ ex.1, ex.2)
  else
    if ds1.isEmpty then none
    else
      let ex := matchExp r1
      some (s.1 ++ ds1 ++ ex.1, ex.2)

/-- Shape of a nonempty exponent text produced by matchExp: e or E, an
optional sign, and a nonempty digit run.  Used to prove that every
numeric token of the tokenizer is accepted by the float conversion. -/
def expForm (ex : List Char) : Prop :=
  ∃ e sg ds, ex = e :: sg ++ ds ∧ (e = 'e' ∨ e = 'E') ∧
    (sg = [] ∨ sg = ['+'] ∨ sg = ['-']) ∧ ds ≠ [] ∧ ds.all Char.isDigit = true

/-- One re.findall scan step per unit of fuel: at each position emit a
command letter, or the longest number match, or skip one unmatched
character.  Fuel is the length of the input; every step consumes at
least one character, so the fuel never runs out. -/
def tokenizeAux (m : ℕ) (cs : List Char) : List (List Char) :=
  match m, cs with
  | 0, _ => []
  | _ + 1, [] => []
  | f + 1, c :: r =>
    if isCmdChar c then [c] :: tokenizeAux f r
    else
      match matchNum (c :: r) with
      | some (tok, rest) => tok :: tokenizeAux f rest
      | none => tokenizeAux f r

/-- The token list produced by re.findall with the pattern of
parse_svg_path: command letters and numeric literals, other characters
dropped. -/
def tokenize (cs : List Char) : List (List Char) := tokenizeAux cs.length cs

/-- Python str.isalpha for the ASCII tokens at hand: nonempty and all
alphabetic. -/
def isalphaStr (tok : List Char) : Bool :=
  !tok.isEmpty && tok.all Char.isAlpha

/-- The arg_counts table of parse_svg_path, with default 0 for keys not
present (including the None current command). -/
def argCountN (c : List Char) : ℕ :=
  match c with
  | ['M'] | ['m'] | ['L'] | ['l'] => 2
  | ['H'] | ['h'] | ['V'] | ['v'] => 1
  | ['C'] | ['c'] => 6
  | ['S'] | ['s'] => 4
  | ['Q'] | ['q'] => 4
  | ['T'] | ['t'] => 2
  | ['Z'] | ['z'] => 0
  | ['A'] | ['a'] => 7
  | _ => 0

/-- Implicit repeat rule of parse_svg_path: after a completed absolute
move the active command becomes absolute line, after a completed relative
move it becomes relative line, all other commands stay active unchanged. -/
def implicitNext (c : List Char) : List Char :=
  if c == ['M'] then ['L'] else if c == ['m'] then ['l'] else c

/-- Loop state of parse_svg_path: the active command token, the argument
accumulator, and the commands emitted so far. -/
structure PState where
  current : Option (List Char)
  args : List ℚ
  acc : List (List Char × List ℚ)
deriving DecidableEq

/-- One iteration of the token loop of parse_svg_path.  A letter token
flushes the active command (with whatever arguments it gathered) and
becomes active with an empty accumulator; a numeric token is converted by
float (none models the ValueError) and appended, and when the count
reaches the arity of the active command the command is emitted and the
implicit-repeat rule picks the next active command. -/
def parseStep (st : PState) (tok : List Char) : Option PState :=
  if isalphaStr tok then
    some { current := some tok, args := [],
           acc := st.acc ++ (match st.current with
             | some c => [(c, st.args)]
             | none => []) }
  else
    match pyFloat tok with
    | none => none
    | some q =>
      match st.current with
      | none => some { st with args := st.args ++ [q] }
      | some c =>
        let args2 := st.args ++ [q]
        if 0 < argCountN c && args2.length == argCountN c then
          some { current := some (implicitNext c), args := [],
                 acc := st.acc ++ [(c, args2)] }
        else
          some { st with args := args2 }

/-- Final flush of parse_svg_path: the active command is appended when it
has pending arguments or is a close command. -/
def finalizeP (st : PState) : List (List Char × List ℚ) :=
  match st.current with
  | none => st.acc
  | some c =>
    if !st.args.isEmpty || c == ['z'] || c == ['Z'] then st.acc ++ [(c, st.args)]
    else st.acc

/-- The token loop of parse_svg_path over a given token list. -/
def parseTokens (toks : List (List Char)) : Option (List (List Char × List ℚ)) :=
  match toks.foldlM parseStep ⟨none, [], []⟩ with
  | none => none
  | some st => some (finalizeP st)

/-- parse_svg_path of src/temp/svg2tikz.py: tokenize the path description
and run the command-accumulation loop.  none models an uncaught
ValueError from float (proved below to be unreachable). -/
def parse_svg_path (d : List Char) : Option (List (List Char × List ℚ)) :=
  parseTokens (tokenize d)

/-- A TikZ path directive as emitted into tikz_parts: a bare coordinate
(move), a line segment, a cubic curve, or the closing cycle. -/
inductive Directive where
  | moveTo (x y : ℚ)
  | lineTo (x y : ℚ)
  | curveTo (c1x c1y c2x c2y ex ey : ℚ)
  | cycle
deriving DecidableEq

/-- Bounding box in target units (min and max of each coordinate). -/
structure BBox where
  minX : ℚ
  maxX : ℚ
  minY : ℚ
  maxY : ℚ
deriving DecidableEq

/-- Per-path loop state of svg_paths_to_tikz: pen position and subpath
start in source units, emitted directives, point count and bounding box.
The none bounding box models the initial infinities before any point. -/
structure TState where
  cx : ℚ
  cy : ℚ
  sx : ℚ
  sy : ℚ
  parts : List Directive
  pc : ℕ
  bbox : Option BBox
deriving DecidableEq

/-- Bounding-box update with one transformed point, as the min and max
calls of svg_paths_to_tikz perform it (min of infinity and x being x). -/
def bbAdd (bb : Option BBox) (x y : ℚ) : Option BBox :=
  match bb with
  | none => some ⟨x, x, y, y⟩
  | some b => some ⟨min b.minX x, max b.maxX x, min b.minY y, max b.maxY y⟩

/-- The arg_needed table of the transform loop (note: close commands and
the unsupported arc, quadratic and smooth shorthand kinds are absent). -/
def transNeeded (c : List Char) : Option ℕ :=
  match c with
  | ['M'] | ['m'] | ['L'] | ['l'] => some 2
  | ['C'] | ['c'] => some 6
  | ['H'] | ['h'] | ['V'] | ['v'] => some 1
  | ['S'] | ['s'] => some 4
  | _ => none

/-- Body of the transform loop of svg_paths_to_tikz for one command with
sufficient arguments, mirroring the elif chain of the source.
Coordinates are transformed at emission by the factor one tenth
(decipoints to points) times the scale.  Commands with no branch in the
chain (S, s and the unknown kinds reach the final pass) leave the state
unchanged.  The relative cubic destructures exactly six arguments in the
source; the parser never emits more than six for c, so the inner
fallthrough of that branch is unreachable, as are the inner fallthroughs
of the other branches, whose argument counts the caller has already
checked. -/
def transExec (sc : ℚ) (st : TState) (c : List Char) (args : List ℚ) : TState :=
  if c == ['M'] then
    match args with
    | a :: b :: _ =>
      let tx := a * (1 / 10) * sc
      let ty := b * (1 / 10) * sc
      { st with cx := a, cy := b, sx := a, sy := b,
                parts := st.parts ++ [.moveTo tx ty],
                pc := st.pc + 1, bbox := bbAdd st.bbox tx ty }
    | _ => st
  else if c == ['m'] then
    match args with
    | a :: b :: _ =>
      let tx := (st.cx + a) * (1 / 10) * sc
      let ty := (st.cy + b) * (1 / 10) * sc
      { st with cx := st.cx + a, cy := st.cy + b, sx := st.cx + a, sy := st.cy + b,
                parts := st.parts ++ [.moveTo tx ty],
                pc := st.pc + 1, bbox := bbAdd st.bbox tx ty }
    | _ => st
  else if c == ['c'] then
    match args with
    | [d1, e1, d2, e2, dx, dy] =>
      let c1x := (st.cx + d1) * (1 / 10) * sc
      let c1y := (st.cy + e1) * (1 / 10) * sc
      let c2x := (st.cx + d2) * (1 / 10) * sc
      let c2y := (st.cy + e2) * (1 / 10) * sc
      let ex := (st.cx + dx) * (1 / 10) * sc
      let ey := (st.cy + dy) * (1 / 10) * sc
      { st with cx := st.cx + dx, cy := st.cy + dy,
                parts := st.parts ++ [.curveTo c1x c1y c2x c2y ex ey],
                pc := st.pc + 1, bbox := bbAdd st.bbox ex ey }
    | _ => st
  else if c == ['C'] then
    match args with
    | a1 :: a2 :: a3 :: a4 :: a5 :: a6 :: _ =>
      let c1x := a1 * (1 / 10) * sc
      let c1y := a2 * (1 / 10) * sc
      let c2x := a3 * (1 / 10) * sc
      let c2y := a4 * (1 / 10) * sc
      let ex := a5 * (1 / 10) * sc
      let ey := a6 * (1 / 10) * sc
      { st with cx := a5, cy := a6,
                parts := st.parts ++ [.curveTo c1x c1y c2x c2y ex ey],
                pc := st.pc + 1, bbox := bbAdd st.bbox ex ey }
    | _ => st
  else if c == ['l'] then
    match args with
    | a :: b :: _ =>
      let tx := (st.cx + a) * (1 / 10) * sc
      let ty := (st.cy + b) * (1 / 10) * sc
      { st with cx := st.cx + a, cy := st.cy + b,
                parts := st.parts ++ [.lineTo tx ty],
                pc := st.pc + 1, bbox := bbAdd st.bbox tx ty }
    | _ => st
  else if c == ['L'] then
    match args with
    | a :: b :: _ =>
      let tx := a * (1 / 10) * sc
      let ty := b * (1 / 10) * sc
      { st with cx := a, cy := b,
                parts := st.parts ++ [.lineTo tx ty],
                pc := st.pc + 1, bbox := bbAdd st.bbox tx ty }
    | _ => st
  else if c == ['h'] then
    match args with
    | a :: _ =>
      { st with cx := st.cx + a,
                parts := st.parts ++
                  [.lineTo ((st.cx + a) * (1 / 10) * sc) (st.cy * (1 / 10) * sc)],
                pc := st.pc + 1 }
    | _ => st
  else if c == ['v'] then
    match args with
    | a :: _ =>
      { st with cy := st.cy + a,
                parts := st.parts ++
                  [.lineTo (st.cx * (1 / 10) * sc) ((st.cy + a) * (1 / 10) * sc)],
                pc := st.pc + 1 }
    | _ => st
  else if c == ['z'] || c == ['Z'] then
    { st with parts := st.parts ++ [.cycle], cx := st.sx, cy := st.sy }
  else st

/-- One iteration of the transform loop: commands listed in arg_needed
with too few arguments are skipped without touching any state, everything
else is executed. -/
def transStep (sc : ℚ) (st : TState) (p : List Char × List ℚ) : TState :=
  match transNeeded p.1 with
  | some n => if p.2.length < n then st else transExec sc st p.1 p.2
  | none => transExec sc st p.1 p.2

/-- The per-path transform loop of svg_paths_to_tikz from the initial
state (pen and subpath start at the origin, nothing emitted). -/
def runPath (sc : ℚ) (cmds : List (List Char × List ℚ)) : TState :=
  cmds.foldl (transStep sc) ⟨0, 0, 0, 0, [], 0, none⟩

/-- Replace every occurrence of a pattern, scanning left to right without
overlap, as Python str.replace does.  Fuel is the input length; each step
consumes at least one character for nonempty patterns. -/
def replAllAux (pat rep : List Char) : ℕ → List Char → List Char
  | 0, cs => cs
  | _ + 1, [] => []
  | f + 1, c :: r =>
    if !pat.isEmpty && pat.isPrefixOf (c :: r) then
      rep ++ replAllAux pat rep f ((c :: r).drop pat.length)
    else
      c :: replAllAux pat rep f r

/-- Python str.replace over character lists (for nonempty patterns). -/
def replAll (pat rep cs : List Char) : List Char := replAllAux pat rep cs.length cs

/-- Width extraction of svg_paths_to_tikz: the width attribute with
default 725, the pt suffix text removed everywhere, converted by float.
none models the uncaught ValueError when the result is unparsable. -/
def getWidthPt (attr : Option String) : Option ℚ :=
  pyFloat (replAll ['p', 't'] [] (attr.getD "725").data)

/-- Height extraction, with default 513. -/
def getHeightPt (attr : Option String) : Option ℚ :=
  pyFloat (replAll ['p', 't'] [] (attr.getD "513").data)

/-- A source document, abstracted to what svg_paths_to_tikz reads from
the XML tree: the width and height attributes of the root and the d
attributes of the path elements in document order (none models a path
element without a d attribute, read as the empty string). -/
structure SvgDoc where
  width : Option String
  height : Option String
  paths : List (Option String)

/-- Outcome for one path element: an uncaught exception, a skipped path,
or a retained path with its final transform state. -/
inductive PathRes where
  | err
  | skip
  | keep (st : TState)
deriving DecidableEq

/-- Per-path work of svg_paths_to_tikz: skip an empty d attribute, parse,
skip paths with fewer parsed commands than the minimum threshold, run the
transform and retain the path only when the point count reaches the
threshold and at least one directive was emitted. -/
def processOne (sc : ℚ) (minPts : ℕ) (dAttr : Option String) : PathRes :=
  let d := dAttr.getD ""
  if d = "" then .skip
  else
    match parse_svg_path d.data with
    | none => .err
    | some cmds =>
      if cmds.length < minPts then .skip
      else
        let st := runPath sc cmds
        if minPts ≤ st.pc ∧ st.parts ≠ [] then .keep st else .skip

/-- The path loop: enumerate the path elements (the index counts skipped
elements too), collect retained paths in document order, abort the run on
an exception. -/
def convertPaths (sc : ℚ) (minPts : ℕ) : ℕ → List (Option String) → Option (List (ℕ × TState))
  | _, [] => some []
  | i, p :: ps =>
    match processOne sc minPts p with
    | .err => none
    | .skip => convertPaths sc minPts (i + 1) ps
    | .keep st => (convertPaths sc minPts (i + 1) ps).map (fun l => (i, st) :: l)

/-- svg_paths_to_tikz of src/temp/svg2tikz.py, modelled up to the
retained-path sequence: parse the document width and height (either
failing aborts the run), compute the scale as target width over source
width, and process every path element.  The printed summary lines, the
sorting of path statistics for the report and the tikzpicture wrapper
text are presentation only and are not modelled; the directive sequence,
point count, bounding box and retention decision per path are. -/
def svg_paths_to_tikz (doc : SvgDoc) (target : ℚ) (minPts : ℕ) :
    Option (List (ℕ × TState)) :=
  match getWidthPt doc.width with
  | none => none
  | some w =>
    match getHeightPt doc.height with
    | none => none
    | some _ => convertPaths (target / w) minPts 0 doc.paths

/-- Scale the coordinates of one directive by a factor. -/
def scaleDir (k : ℚ) : Directive → Directive
  | .moveTo x y => .moveTo (k * x) (k * y)
  | .lineTo x y => .lineTo (k * x) (k * y)
  | .curveTo a b c d e f => .curveTo (k * a) (k * b) (k * c) (k * d) (k * e) (k * f)
  | .cycle => .cycle

/-- Scale a bounding box by a factor. -/
def scaleBB (k : ℚ) (b : BBox) : BBox := ⟨k * b.minX, k * b.maxX, k * b.minY, k * b.maxY⟩

/-- Scale the emitted data of a transform state by a factor, leaving the
source-unit pen and subpath positions and the point count unchanged. -/
def scaleTState (k : ℚ) (st : TState) : TState :=
  { st with parts := st.parts.map (scaleDir k), bbox := st.bbox.map (scaleBB k) }

/-- Recognizer for move directives. -/
def isMoveDir : Directive → Bool
  | .moveTo _ _ => true
  | _ => false

/-- Recognizer for the close directive. -/
def isCycleDir : Directive → Bool
  | .cycle => true
  | _ => false

end SvgTikz

namespace TexPre

/-!
Embedding of preprocess from src/web/preprocess.py.  Each re.sub call is
modelled as a left-to-right scan that, at every position, either applies
the leftmost-anchored match of the pattern (emitting the replacement and
resuming after the matched text, which is never rescanned) or copies one
character.  The concrete patterns of the source never match the empty
string, so every applied match consumes at least one character.  Brace
characters inside string literals are written with hexadecimal escapes
throughout this namespace.
-/

/-- A word character for the word-boundary assertions (ASCII letters,
digits and underscore; the lecture sources are ASCII). -/
def isWordCh (c : Char) : Bool := c.isAlphanum || c == '_'

/-- One rewriting scan: fuel is the input length, and each applied match
consumes at least one character. -/
def rewriteAux (m : List Char → Option (List Char × List Char)) :
    ℕ → List Char → List Char
  | 0, cs => cs
  | _ + 1, [] => []
  | f + 1, c :: cs =>
    match m (c :: cs) with
    | some (rep, rest) => rep ++ rewriteAux m f rest
    | none => c :: rewriteAux m f cs

/-- re.sub with a matcher that returns the replacement text and the rest
of the input after the matched text. -/
def rewriteAll (m : List Char → Option (List Char × List Char))
    (cs : List Char) : List Char :=
  rewriteAux m cs.length cs

/-- Match a literal and return the remainder. -/
def afterLit (pat cs : List Char) : Option (List Char) :=
  if pat.isPrefixOf cs then some (cs.drop pat.length) else none

/-- Word boundary after a word character: holds at the end of input or
before a non-word character. -/
def wordB (cs : List Char) : Bool :=
  match cs with
  | [] => true
  | c :: _ => !isWordCh c

/-- Matcher for a backslash-name pattern with a trailing word boundary
and a fixed replacement. -/
def mkSimple (name repl : List Char) (cs : List Char) :
    Option (List Char × List Char) :=
  match afterLit name cs with
  | some r => if wordB r then some (repl, r) else none
  | none => none

/-- Greedy capture of the characters before a stop character, requiring
the stop character to be present, and consuming it. -/
def grabTo (stop : Char) (cs : List Char) : Option (List Char × List Char) :=
  let g := cs.takeWhile (fun c => c != stop)
  match cs.dropWhile (fun c => c != stop) with
  | _ :: rest => some (g, rest)
  | [] => none

/-- Matcher for a prefix followed by one brace-free group in braces (the
prefix literal includes the opening brace). -/
def mkArg1 (pre : List Char) (mk : List Char → List Char) (cs : List Char) :
    Option (List Char × List Char) :=
  match afterLit pre cs with
  | some r =>
    match grabTo '\x7d' r with
    | some (g, rest) => some (mk g, rest)
    | none => none
  | none => none

/-- Matcher for a prefix followed by two adjacent brace-free groups in
braces. -/
def mkArg2 (pre : List Char) (mk : List Char → List Char → List Char)
    (cs : List Char) : Option (List Char × List Char) :=
  match afterLit pre cs with
  | some r =>
    match grabTo '\x7d' r with
    | some (g1, r1) =>
      match afterLit ['\x7b'] r1 with
      | some r2 =>
        match grabTo '\x7d' r2 with
        | some (g2, rest) => some (mk g1 g2, rest)
        | none => none
      | none => none
    | none => none
  | none => none

/-- A complete depth-zero brace group: an opening brace, brace-free
content, a closing brace; returns the matched text including braces. -/
def grp0 (cs : List Char) : Option (List Char × List Char) :=
  match cs with
  | '\x7b' :: r =>
    let inner := r.takeWhile (fun c => c != '\x7b' && c != '\x7d')
    match r.dropWhile (fun c => c != '\x7b' && c != '\x7d') with
    | '\x7d' :: rest => some ('\x7b' :: inner ++ ['\x7d'], rest)
    | _ => none
  | _ => none

/-- Greedy run of units for the depth-one nested-brace capture of the
norm pattern: a unit is a non-brace character or a complete depth-zero
group; the run stops at a closing brace, the end of input, or an opening
brace that does not begin a complete group (where the overall match then
fails on the required closing brace, as the regex does). -/
def units1 : ℕ → List Char → List Char × List Char
  | 0, cs => ([], cs)
  | f + 1, cs =>
    match cs with
    | [] => ([], [])
    | '\x7b' :: _ =>
      (match grp0 cs with
       | some (u, rest) =>
         let p := units1 f rest
         (u ++ p.1, p.2)
       | none => ([], cs))
    | '\x7d' :: _ => ([], cs)
    | c :: r =>
      let p := units1 f r
      (c :: p.1, p.2)

/-- A complete depth-one brace group (content may contain depth-zero
groups). -/
def grp1 (f : ℕ) (cs : List Char) : Option (List Char × List Char) :=
  match cs with
  | '\x7b' :: r =>
    let p := units1 f r
    match p.2 with
    | '\x7d' :: rest => some ('\x7b' :: p.1 ++ ['\x7d'], rest)
    | _ => none
  | _ => none

/-- Greedy run of units for the depth-two nested-brace capture used by
the vb and uv patterns. -/
def units2 : ℕ → List Char → List Char × List Char
  | 0, cs => ([], cs)
  | f + 1, cs =>
    match cs with
    | [] => ([], [])
    | '\x7b' :: _ =>
      (match grp1 (f + 1) cs with
       | some (u, rest) =>
         let p := units2 f rest
         (u ++ p.1, p.2)
       | none => ([], cs))
    | '\x7d' :: _ => ([], cs)
    | c :: r =>
      let p := units2 f r
      (c :: p.1, p.2)

/-- Matcher for a prefix followed by a depth-two nested-brace capture and
a closing brace. -/
def mkNb2 (pre : List Char) (mk : List Char → List Char) (cs : List Char) :
    Option (List Char × List Char) :=
  match afterLit pre cs with
  | some r =>
    let p := units2 r.length r
    match p.2 with
    | '\x7d' :: rest => some (mk p.1, rest)
    | _ => none
  | none => none

/-- Matcher for the norm pattern: prefix, depth-one nested-brace capture,
closing brace. -/
def mkNb1 (pre : List Char) (mk : List Char → List Char) (cs : List Char) :
    Option (List Char × List Char) :=
  match afterLit pre cs with
  | some r =>
    let p := units1 r.length r
    match p.2 with
    | '\x7d' :: rest => some (mk p.1, rest)
    | _ => none
  | none => none

/-- Matcher for the TEX-root directive line: the literal, the rest of the
line (greedy, not crossing the newline), and the newline itself. -/
def mTexRoot (cs : List Char) : Option (List Char × List Char) :=
  match afterLit "%!TEX root".data cs with
  | some r =>
    match r.dropWhile (fun c => c != '\n') with
    | _ :: rest => some ([], rest)
    | [] => none
  | none => none

/-- The lazy scan of a dot-all non-greedy gap: try the tail pattern at
every position from left to right and stop at the first success. -/
def lazyScan (tail : List Char → Option (List Char)) :
    ℕ → List Char → Option (List Char)
  | 0, cs => tail cs
  | f + 1, cs =>
    match tail cs with
    | some r => some r
    | none =>
      match cs with
      | [] => none
      | _ :: r => lazyScan tail f r

/-- Like lazyScan, additionally returning the skipped gap text. -/
def lazyCollect (tail : List Char → Option (List Char)) :
    ℕ → List Char → Option (List Char × List Char)
  | 0, cs => (tail cs).map (fun r => ([], r))
  | f + 1, cs =>
    match tail cs with
    | some r => some ([], r)
    | none =>
      match cs with
      | [] => none
      | c :: r => (lazyCollect tail f r).map (fun p => (c :: p.1, p.2))

/-- Tail pattern of the centered TikZ picture: end of tikzpicture,
whitespace, end of center. -/
def tailCT (cs : List Char) : Option (List Char) :=
  match afterLit "\\end\x7btikzpicture\x7d".data cs with
  | some r => afterLit "\\end\x7bcenter\x7d".data (r.dropWhile SvgTikz.isSpaceCh)
  | none => none

/-- Matcher replacing a centered TikZ picture with the placeholder. -/
def mCenterTikz (cs : List Char) : Option (List Char × List Char) :=
  match afterLit "\\begin\x7bcenter\x7d".data cs with
  | some r1 =>
    match afterLit "\\begin\x7btikzpicture\x7d".data (r1.dropWhile SvgTikz.isSpaceCh) with
    | some r2 =>
      match lazyScan tailCT r2.length r2 with
      | some rest =>
        some ("\n\n\\begin\x7bcenter\x7d\n\\textit\x7b[TikZ diagram --- see PDF]\x7d\n\\end\x7bcenter\x7d\n\n".data, rest)
      | none => none
    | none => none
  | none => none

/-- Matcher replacing a bare TikZ picture with the placeholder. -/
def mTikz (cs : List Char) : Option (List Char × List Char) :=
  match afterLit "\\begin\x7btikzpicture\x7d".data cs with
  | some r =>
    match lazyScan (afterLit "\\end\x7btikzpicture\x7d".data) r.length r with
    | some rest => some ("\\textit\x7b[TikZ diagram --- see PDF]\x7d".data, rest)
    | none => none
  | none => none

/-- Matcher deleting one label command inside a caption. -/
def mLabel (cs : List Char) : Option (List Char × List Char) :=
  mkArg1 "\\label\x7b".data (fun _ => []) cs

/-- Strip ASCII whitespace from both ends, as str.strip on the ASCII
captions at hand. -/
def stripWs (l : List Char) : List Char :=
  ((l.dropWhile SvgTikz.isSpaceCh).reverse.dropWhile SvgTikz.isSpaceCh).reverse

/-- The caption search of figure_replacer: the first caption command
whose opening brace has a closing brace somewhere after it; the captured
group runs to the first closing brace (the non-greedy dot-all gap).  When
no closing brace follows the first caption occurrence, none follows any
later one either, so the search fails as re.search does. -/
def findCaption : ℕ → List Char → Option (List Char)
  | 0, _ => none
  | f + 1, cs =>
    match afterLit "\\caption\x7b".data cs with
    | some r =>
      if (r.dropWhile (fun c => c != '\x7d')).isEmpty then none
      else some (r.takeWhile (fun c => c != '\x7d'))
    | none =>
      match cs with
      | [] => none
      | _ :: r => findCaption f r

/-- Caption cleanup of figure_replacer: delete label commands, strip
whitespace, then replace tildes by spaces. -/
def cleanCaption (cap : List Char) : List Char :=
  (stripWs (rewriteAll mLabel cap)).map (fun c => if c == '~' then ' ' else c)

/-- Matcher replacing a figure environment by the caption placeholder.
The source also searches the matched text for an input command to compute
a figure identifier, but that identifier is unused in the returned
replacement, so the search is not modelled. -/
def mFigure (cs : List Char) : Option (List Char × List Char) :=
  match afterLit "\\begin\x7bfigure\x7d".data cs with
  | some r =>
    match lazyCollect (afterLit "\\end\x7bfigure\x7d".data) r.length r with
    | some (inner, rest) =>
      let m0 := "\\begin\x7bfigure\x7d".data ++ inner ++ "\\end\x7bfigure\x7d".data
      let cap :=
        match findCaption m0.length m0 with
        | some c => cleanCaption c
        | none => []
      some ("\n\n\\textit\x7b[Figure: ".data ++ cap ++ "]\x7d\n\n".data, rest)
    | none => none
  | none => none

/-- Matcher for the pd pattern with a bracketed order argument and two
braced arguments. -/
def mPdOpt (cs : List Char) : Option (List Char × List Char) :=
  match afterLit "\\pd[".data cs with
  | some r =>
    match grabTo ']' r with
    | some (g1, r1) =>
      match afterLit ['\x7b'] r1 with
      | some r2 =>
        match grabTo '\x7d' r2 with
        | some (g2, r3) =>
          match afterLit ['\x7b'] r3 with
          | some r4 =>
            match grabTo '\x7d' r4 with
            | some (g3, rest) =>
              some ("\\frac\x7b\\partial^\x7b".data ++ g1 ++ "\x7d ".data ++ g2 ++
                    "\x7d\x7b\\partial \x7b".data ++ g3 ++ "\x7d^\x7b".data ++ g1 ++
                    "\x7d\x7d".data, rest)
            | none => none
          | none => none
        | none => none
      | none => none
    | none => none
  | none => none

/-- Matcher for the eqbox pattern, whose group must be nonempty. -/
def mEqbox (cs : List Char) : Option (List Char × List Char) :=
  match afterLit "\\eqbox\x7b".data cs with
  | some r =>
    match grabTo '\x7d' r with
    | some (g, rest) =>
      if g.isEmpty then none
      else some ("\\boxed\x7b".data ++ g ++ ['\x7d'], rest)
    | none => none
  | none => none

/-- Matcher deleting the figbox control word (no word boundary in the
source pattern). -/
def mFigbox (cs : List Char) : Option (List Char × List Char) :=
  match afterLit "\\figbox".data cs with
  | some r => some ([], r)
  | none => none

/-- preprocess of src/web/preprocess.py: the fixed sequence of rewrites
in source order.  Regular-expression passes are modelled by rewriteAll
with the matcher of the pattern; plain str.replace passes by
SvgTikz.replAll. -/
def preprocess (s : String) : String :=
  let t := s.data
  let t := rewriteAll mTexRoot t
  let t := rewriteAll mCenterTikz t
  let t := rewriteAll mTikz t
  let t := rewriteAll mFigure t
  let t := rewriteAll (mkArg1 "\\Rn\x7b".data
    (fun g => "\\mathbb\x7bR\x7d^\x7b".data ++ g ++ ['\x7d'])) t
  let t := rewriteAll (mkSimple "\\M".data "\\mathcal\x7bM\x7d".data) t
  let t := rewriteAll (mkSimple "\\R".data "\\mathbb\x7bR\x7d".data) t
  let t := rewriteAll (mkSimple "\\Tp".data "T_p\\mathcal\x7bM\x7d".data) t
  let t := rewriteAll (mkSimple "\\Tps".data "T_p^*\\mathcal\x7bM\x7d".data) t
  let t := rewriteAll (mkSimple "\\covd".data "\\nabla".data) t
  let t := rewriteAll (mkSimple "\\Lie".data "\\mathcal\x7bL\x7d".data) t
  let t := rewriteAll (mkArg2 "\\chris\x7b".data
    (fun g1 g2 => "\\Gamma^\x7b".data ++ g1 ++ "\x7d\x7b\x7d_\x7b".data ++ g2 ++ ['\x7d'])) t
  let t := rewriteAll (mkSimple "\\Riem".data "R".data) t
  let t := rewriteAll (mkSimple "\\Ric".data "R".data) t
  let t := rewriteAll (mkSimple "\\Ein".data "G".data) t
  let t := rewriteAll (mkSimple "\\Weyl".data "C".data) t
  let t := rewriteAll (mkNb2 "\\vb\x7b".data
    (fun g => "\\boldsymbol\x7b".data ++ g ++ ['\x7d'])) t
  let t := rewriteAll (mkNb2 "\\uv\x7b".data
    (fun g => "\\hat\x7b\\boldsymbol\x7b".data ++ g ++ "\x7d\x7d".data)) t
  let t := rewriteAll (mkNb1 "\\norm\x7b".data
    (fun g => "\\lVert ".data ++ g ++ " \\rVert".data)) t
  let t := rewriteAll mPdOpt t
  let t := rewriteAll (mkArg2 "\\pd\x7b".data
    (fun g1 g2 => "\\frac\x7b\\partial ".data ++ g1 ++ "\x7d\x7b\\partial ".data ++ g2 ++ ['\x7d'])) t
  let t := rewriteAll (mkArg2 "\\td\x7b".data
    (fun g1 g2 => "\\frac\x7bd ".data ++ g1 ++ "\x7d\x7bd ".data ++ g2 ++ ['\x7d'])) t
  let t := rewriteAll (mkSimple "\\dd".data "\\mathrm\x7bd\x7d".data) t
  let t := rewriteAll (mkSimple "\\tp".data "\\otimes".data) t
  let t := rewriteAll (mkArg2 "\\ttype\x7b".data
    (fun g1 g2 => "\\mathcal\x7bT\x7d(".data ++ g1 ++ [','] ++ g2 ++ [')'])) t
  let t := rewriteAll (mkArg1 "\\dt\x7b".data
    (fun g => "\\dot\x7b".data ++ g ++ ['\x7d'])) t
  let t := rewriteAll (mkArg1 "\\ddt\x7b".data
    (fun g => "\\ddot\x7b".data ++ g ++ ['\x7d'])) t
  let t := rewriteAll (mkSimple "\\dalem".data "\\Box".data) t
  let t := rewriteAll (mkSimple "\\lap".data "\\Delta".data) t
  let t := rewriteAll (mkSimple "\\grav".data "G".data) t
  let t := rewriteAll mEqbox t
  let t := SvgTikz.replAll "\\leavevmode".data [] t
  let t := SvgTikz.replAll "\\medskip".data ['\n'] t
  let t := SvgTikz.replAll "\\bigskip".data ['\n'] t
  let t := SvgTikz.replAll "\\smallskip".data ['\n'] t
  let t := SvgTikz.replAll "\\noindent".data [] t
  let t := rewriteAll mFigbox t
  ⟨t⟩

end TexPre

namespace SvgTikz

set_option maxRecDepth 100000

/-- Claim C1: for a document with width and height attributes 100pt, a
target width of 10, and the single path M500,500 L1000,500 L1000,1000 Z,
the converter emits exactly move-to(5,5), line-to(10,5), line-to(10,10)
and the closing cycle of the fill command, with bounding box from (5,5)
to (10,10), and the path is retained under the default minimum-points
threshold of 3.  The values 5 and 10 are exactly the printed 5.000,
10.000, 5.00 and 10.00. -/
theorem c1_end_to_end :
    svg_paths_to_tikz ⟨some "100pt", some "100pt",
        [some "M500,500 L1000,500 L1000,1000 Z"]⟩ 10 3 =
      some [(0, ⟨500, 500, 500, 500,
        [.moveTo 5 5, .lineTo 10 5, .lineTo 10 10, .cycle], 3,
        some ⟨5, 10, 5, 10⟩⟩)] := by with_unfolding_all decide

/-- Claim C5 counterexample: with a width attribute present but
unparsable as a number, the float conversion raises (modelled by none)
and the run aborts instead of recovering to the fallback value, contrary
to the claim that both the missing and the unparsable case recover
locally with no error. -/
theorem c5_unparsable_width_fails :
    getWidthPt (some "abc") = none ∧
    svg_paths_to_tikz ⟨some "abc", none, []⟩ 8 3 = none := by with_unfolding_all decide

/-- Claim C5 amended: only a missing width attribute is recovered, by the
hardcoded fallback 725; a present width parses normally (100pt gives
100); and a run with a missing width completes without error. -/
theorem c5_missing_width_fallback :
    getWidthPt none = some 725 ∧ getWidthPt (some "100pt") = some 100 ∧
    svg_paths_to_tikz ⟨none, none, []⟩ 8 3 = some [] := by with_unfolding_all decide

/-- Claim C6 counterexample: a path description containing the malformed
numeric text 2.3.4 parses without any error; the tokenizer reads it as
the two valid numbers 2.3 and .4 (the second flushed into an implicit
line command at the end of input), so no failing float conversion ever
happens. -/
theorem c6_malformed_token_parses :
    parse_svg_path "M 1 2.3.4".data =
      some [(['M'], [1, 23 / 10]), (['L'], [2 / 5])] := by with_unfolding_all decide

/-- Claim C7: a command whose argument list is shorter than its
arg_needed arity is skipped by the transformer with the whole state (pen,
subpath start, directives, point count, bounding box) unchanged, while
the parser still emits partial commands: a new command letter flushes the
active command with whatever arguments it gathered, and the end of input
flushes a nonempty accumulator. -/
theorem c7_insufficient_args_skipped :
    (∀ (sc : ℚ) (st : TState) (c : List Char) (args : List ℚ) (n : ℕ),
        transNeeded c = some n → args.length < n →
        transStep sc st (c, args) = st) ∧
    (∀ (st : PState) (c tok : List Char), isalphaStr tok = true →
        st.current = some c →
        parseStep st tok =
          some { current := some tok, args := [], acc := st.acc ++ [(c, st.args)] }) ∧
    (∀ (st : PState) (c : List Char), st.current = some c → st.args ≠ [] →
        finalizeP st = st.acc ++ [(c, st.args)]) := by
  refine ⟨?_, ?_, ?_⟩
  · intro sc st c args n hn hlt
    simp [transStep, hn, hlt]
  · intro st c tok ha hc
    simp [parseStep, ha, hc]
  · intro st c hc hne
    simp [finalizeP, hc, hne]

/-- Witness for C7 at a concrete input: an absolute move with no
arguments is skipped by the transformer. -/
theorem c7_insufficient_args_skipped_w :
    transStep 1 ⟨0, 0, 0, 0, [], 0, none⟩ (['M'], []) = ⟨0, 0, 0, 0, [], 0, none⟩ :=
  c7_insufficient_args_skipped.1 1 ⟨0, 0, 0, 0, [], 0, none⟩ ['M'] [] 2
    (by decide) (by decide)

/-- Claim C8: a relative horizontal (respectively vertical) command with
at least one argument adds its first argument to the x (respectively y)
pen coordinate only, emits one line-to directive at the transformed new
pen position, increments the point count, and leaves the bounding box and
the subpath start (and the other pen coordinate) unchanged. -/
theorem c8_hv_relative_frame :
    ∀ (sc : ℚ) (st : TState) (a : ℚ) (rest : List ℚ),
      transStep sc st (['h'], a :: rest) =
        { st with cx := st.cx + a,
                  parts := st.parts ++
                    [.lineTo ((st.cx + a) * (1 / 10) * sc) (st.cy * (1 / 10) * sc)],
                  pc := st.pc + 1 } ∧
      transStep sc st (['v'], a :: rest) =
        { st with cy := st.cy + a,
                  parts := st.parts ++
                    [.lineTo (st.cx * (1 / 10) * sc) ((st.cy + a) * (1 / 10) * sc)],
                  pc := st.pc + 1 } := by
  intro sc st a rest
  exact ⟨rfl, rfl⟩

/-- Claim C10: the description M 0 0 Z parses to three commands, the move,
an implicit line command with an empty argument list, and the close;
in general a command letter read while the active command has an empty
accumulator appends that active command with no arguments, the parsed
command count (checked by the driver against the minimum-points
threshold) therefore counts such empty commands, and the transformer
skips them without changing any state. -/
theorem c10_empty_command_emission :
    parse_svg_path "M 0 0 Z".data =
      some [(['M'], [0, 0]), (['L'], []), (['Z'], [])] ∧
    (∀ (st : PState) (c tok : List Char), isalphaStr tok = true →
        st.current = some c → st.args = [] →
        parseStep st tok =
          some { current := some tok, args := [], acc := st.acc ++ [(c, [])] }) ∧
    (∀ (sc : ℚ) (st : TState), transStep sc st (['L'], []) = st) := by
  refine ⟨by with_unfolding_all decide, ?_, ?_⟩
  · intro st c tok ha hc harg
    simp [parseStep, ha, hc, harg]
  · intro sc st
    rfl

/-- Witness for C10 at a concrete input: reading the close letter while
the implicit line command is active with no arguments appends an empty
line command. -/
theorem c10_empty_command_emission_w :
    parseStep ⟨some ['L'], [], [(['M'], [0, 0])]⟩ ['Z'] =
      some ⟨some ['Z'], [], [(['M'], [0, 0]), (['L'], [])]⟩ :=
  c10_empty_command_emission.2.1 ⟨some ['L'], [], [(['M'], [0, 0])]⟩ ['L'] ['Z']
    (by decide) rfl rfl

end SvgTikz

namespace SvgTikz

/-- A letter token read while a command is active flushes that command
with its gathered arguments and becomes active itself. -/
theorem pStep_letter (st : PState) (tok c : List Char)
    (ha : isalphaStr tok = true) (hc : st.current = some c) :
    parseStep st tok = some ⟨some tok, [], st.acc ++ [(c, st.args)]⟩ := by
  simp [parseStep, ha, hc]

/-- A letter token read with no active command just becomes active. -/
theorem pStep_letter_none (st : PState) (tok : List Char)
    (ha : isalphaStr tok = true) (hc : st.current = none) :
    parseStep st tok = some ⟨some tok, [], st.acc⟩ := by
  simp [parseStep, ha, hc]

/-- A numeric token that completes the arity of the active command emits
the command and activates its implicit successor. -/
theorem pStep_num_complete (st : PState) (tok c : List Char) (q : ℚ)
    (ha : isalphaStr tok = false) (hq : pyFloat tok = some q)
    (hc : st.current = some c) (h0 : 0 < argCountN c)
    (hl : st.args.length + 1 = argCountN c) :
    parseStep st tok =
      some ⟨some (implicitNext c), [], st.acc ++ [(c, st.args ++ [q])]⟩ := by
  simp [parseStep, ha, hq, hc, h0, List.length_append, hl]

/-- A numeric token that does not complete the arity of the active
command is only accumulated. -/
theorem pStep_num_incomplete (st : PState) (tok c : List Char) (q : ℚ)
    (ha : isalphaStr tok = false) (hq : pyFloat tok = some q)
    (hc : st.current = some c) (hl : st.args.length + 1 ≠ argCountN c) :
    parseStep st tok = some { st with args := st.args ++ [q] } := by
  simp [parseStep, ha, hq, hc, List.length_append, hl]

/-- Claim C3: the description M 0 0 10 10 20 20 parses to exactly the
absolute move (0,0) followed by the two absolute lines (10,10) and
(20,20); in general, completing an absolute move activates the absolute
line command, completing a relative move activates the relative line
command, and completing any other command keeps that same command
active for subsequent bare argument groups. -/
theorem c3_implicit_move_to_line :
    parse_svg_path "M 0 0 10 10 20 20".data =
      some [(['M'], [0, 0]), (['L'], [10, 10]), (['L'], [20, 20])] ∧
    (∀ (st : PState) (c tok : List Char) (q : ℚ),
        st.current = some c → isalphaStr tok = false → pyFloat tok = some q →
        0 < argCountN c → st.args.length + 1 = argCountN c →
        c ≠ ['M'] → c ≠ ['m'] →
        parseStep st tok = some ⟨some c, [], st.acc ++ [(c, st.args ++ [q])]⟩) ∧
    (∀ (st : PState) (tok : List Char) (q : ℚ),
        st.current = some ['M'] → isalphaStr tok = false → pyFloat tok = some q →
        st.args.length + 1 = 2 →
        parseStep st tok = some ⟨some ['L'], [], st.acc ++ [(['M'], st.args ++ [q])]⟩) ∧
    (∀ (st : PState) (tok : List Char) (q : ℚ),
        st.current = some ['m'] → isalphaStr tok = false → pyFloat tok = some q →
        st.args.length + 1 = 2 →
        parseStep st tok = some ⟨some ['l'], [], st.acc ++ [(['m'], st.args ++ [q])]⟩) := by
  refine ⟨by with_unfolding_all decide, ?_, ?_, ?_⟩
  · intro st c tok q hc ha hq h0 hl hM hm
    rw [pStep_num_complete st tok c q ha hq hc h0 hl]
    simp [implicitNext, hM, hm]
  · intro st tok q hc ha hq hl
    rw [pStep_num_complete st tok ['M'] q ha hq hc (by decide) hl]
    rfl
  · intro st tok q hc ha hq hl
    rw [pStep_num_complete st tok ['m'] q ha hq hc (by decide) hl]
    rfl

/-- Witness for C3 at a concrete input: completing the arity of an active
relative cubic command keeps the relative cubic command active. -/
theorem c3_implicit_move_to_line_w :
    parseStep ⟨some ['c'], [1, 2, 3, 4, 5], []⟩ ['6'] =
      some ⟨some ['c'], [], [(['c'], [1, 2, 3, 4, 5, 6])]⟩ :=
  c3_implicit_move_to_line.2.1 ⟨some ['c'], [1, 2, 3, 4, 5], []⟩ ['c'] ['6'] 6
    rfl (by decide) (by with_unfolding_all decide) (by decide) (by decide)
    (by decide) (by decide)


/-- Claim C4: a path description consisting of one absolute move and one
close command parses to the move, an implicit empty line command and the
close; the transformer emits exactly one move-to directive and one
close-and-fill cycle for it (point count one), and the driver excludes
the path whenever the minimum-points threshold exceeds two. -/
theorem c4_move_close (d : String) (ta tb : List Char) (a b : ℚ) (zc : Char)
    (sc : ℚ) (minPts : ℕ)
    (htok : tokenize d.data = [['M'], ta, tb, [zc]])
    (ha1 : isalphaStr ta = false) (hf1 : pyFloat ta = some a)
    (ha2 : isalphaStr tb = false) (hf2 : pyFloat tb = some b)
    (hz : zc = 'Z' ∨ zc = 'z') :
    parse_svg_path d.data = some [(['M'], [a, b]), (['L'], []), ([zc], [])] ∧
    runPath sc [(['M'], [a, b]), (['L'], []), ([zc], [])] =
      ⟨a, b, a, b, [.moveTo (a * (1 / 10) * sc) (b * (1 / 10) * sc), .cycle], 1,
        some ⟨a * (1 / 10) * sc, a * (1 / 10) * sc,
              b * (1 / 10) * sc, b * (1 / 10) * sc⟩⟩ ∧
    (runPath sc [(['M'], [a, b]), (['L'], []), ([zc], [])]).parts.countP isMoveDir = 1 ∧
    (runPath sc [(['M'], [a, b]), (['L'], []), ([zc], [])]).parts.countP isCycleDir = 1 ∧
    (2 < minPts → processOne sc minPts (some d) = .skip) := by
  have hd : d ≠ "" := by
    intro he
    rw [he] at htok
    have h0 : tokenize "".data = [] := rfl
    rw [h0] at htok
    exact List.noConfusion htok
  have e1 : parseStep (⟨none, [], []⟩ : PState) ['M'] = some ⟨some ['M'], [], []⟩ :=
    pStep_letter_none _ _ (by decide) rfl
  have e2 : parseStep (⟨some ['M'], [], []⟩ : PState) ta = some ⟨some ['M'], [a], []⟩ := by
    rw [pStep_num_incomplete (⟨some ['M'], [], []⟩ : PState) ta ['M'] a ha1 hf1 rfl (by decide)]
    rfl
  have e3 : parseStep (⟨some ['M'], [a], []⟩ : PState) tb =
      some ⟨some ['L'], [], [(['M'], [a, b])]⟩ := by
    rw [pStep_num_complete (⟨some ['M'], [a], []⟩ : PState) tb ['M'] b ha2 hf2 rfl
      (by decide) rfl]
    rfl
  have e4 : parseStep (⟨some ['L'], [], [(['M'], [a, b])]⟩ : PState) [zc] =
      some ⟨some [zc], [], [(['M'], [a, b]), (['L'], [])]⟩ :=
    pStep_letter _ _ _ (by rcases hz with rfl | rfl <;> decide) rfl
  have hfold : List.foldlM parseStep (⟨none, [], []⟩ : PState) [['M'], ta, tb, [zc]] =
      some ⟨some [zc], [], [(['M'], [a, b]), (['L'], [])]⟩ := by
    rw [List.foldlM_cons, e1]
    rw [Option.bind_eq_bind, Option.some_bind]
    rw [List.foldlM_cons, e2]
    rw [Option.bind_eq_bind, Option.some_bind]
    rw [List.foldlM_cons, e3]
    rw [Option.bind_eq_bind, Option.some_bind]
    rw [List.foldlM_cons, e4]
    rw [Option.bind_eq_bind, Option.some_bind]
    rw [List.foldlM_nil]
    rfl
  have hparse : parse_svg_path d.data = some [(['M'], [a, b]), (['L'], []), ([zc], [])] := by
    rw [parse_svg_path, htok, parseTokens, hfold]
    rcases hz with rfl | rfl <;> rfl
  have hrun : runPath sc [(['M'], [a, b]), (['L'], []), ([zc], [])] =
      ⟨a, b, a, b, [.moveTo (a * (1 / 10) * sc) (b * (1 / 10) * sc), .cycle], 1,
        some ⟨a * (1 / 10) * sc, a * (1 / 10) * sc,
              b * (1 / 10) * sc, b * (1 / 10) * sc⟩⟩ := by
    rcases hz with rfl | rfl <;> rfl
  refine ⟨hparse, hrun, by rw [hrun]; rfl, by rw [hrun]; rfl, ?_⟩
  intro hm
  rw [processOne]
  simp only [Option.getD_some, if_neg hd, hparse]
  by_cases h3 : 3 < minPts
  · simp only [List.length_cons, List.length_nil]
    rw [if_pos (by omega)]
  · have hm3 : minPts = 3 := by omega
    subst hm3
    simp only [List.length_cons, List.length_nil]
    rw [if_neg (by omega), hrun]
    rw [if_neg (by simp)]

/-- Witness for C4 at a concrete input: the description M 1 2 Z parses to
the move, the empty implicit line and the close. -/
theorem c4_move_close_w :
    parse_svg_path "M 1 2 Z".data =
      some [(['M'], [1, 2]), (['L'], []), (['Z'], [])] :=
  (c4_move_close "M 1 2 Z" ['1'] ['2'] 1 2 'Z' 1 3
    (by with_unfolding_all decide) (by decide) (by with_unfolding_all decide)
    (by decide) (by with_unfolding_all decide) (Or.inl rfl)).1

/-- Scaling commutes with a bounding-box update, for a nonnegative
factor. -/
theorem qbbAdd_scale (k : ℚ) (hk : 0 ≤ k) (bb : Option BBox) (x y : ℚ) :
    bbAdd (bb.map (scaleBB k)) (k * x) (k * y) = (bbAdd bb x y).map (scaleBB k) := by
  cases bb with
  | none => rfl
  | some b => simp [bbAdd, scaleBB, mul_min_of_nonneg _ _ hk, mul_max_of_nonneg _ _ hk]

/-- Variant of qbbAdd_scale taking the scaled coordinates in any
ring-equal form. -/
theorem qbbAdd_scale2 (k : ℚ) (hk : 0 ≤ k) (bb : Option BBox) (x y x2 y2 : ℚ)
    (hx : x2 = k * x) (hy : y2 = k * y) :
    bbAdd (bb.map (scaleBB k)) x2 y2 = (bbAdd bb x y).map (scaleBB k) := by
  subst hx
  subst hy
  exact qbbAdd_scale k hk bb x y

/-- Scaling the transform factor commutes with the absolute move branch of
the transformer. -/
theorem texec_M (k sc : ℚ) (hk : 0 ≤ k) (st : TState) (args : List ℚ) :
    transExec (k * sc) (scaleTState k st) ['M'] args =
      scaleTState k (transExec sc st ['M'] args) := by
  rcases args with _ | ⟨a1, _ | ⟨a2, _ | t⟩⟩
  all_goals try rfl
  all_goals unfold transExec
  all_goals
    simp only [if_pos (show ((['M'] == ['M']) = true) by decide)]
    simp only [scaleTState, List.map_append, List.map_cons, List.map_nil, scaleDir,
      TState.mk.injEq]
    try and_intros
    all_goals
      first
      | (refine qbbAdd_scale2 k hk _ _ _ _ _ ?_ ?_ <;> ring)
      | rfl
      | ring

/-- Scaling the transform factor commutes with the relative move branch of
the transformer. -/
theorem texec_m (k sc : ℚ) (hk : 0 ≤ k) (st : TState) (args : List ℚ) :
    transExec (k * sc) (scaleTState k st) ['m'] args =
      scaleTState k (transExec sc st ['m'] args) := by
  rcases args with _ | ⟨a1, _ | ⟨a2, _ | t⟩⟩
  all_goals try rfl
  all_goals unfold transExec
  all_goals
    simp only [if_neg (show ¬ ((['m'] == ['M']) = true) by decide),
      if_pos (show ((['m'] == ['m']) = true) by decide)]
    simp only [scaleTState, List.map_append, List.map_cons, List.map_nil, scaleDir,
      TState.mk.injEq]
    try and_intros
    all_goals
      first
      | (refine qbbAdd_scale2 k hk _ _ _ _ _ ?_ ?_ <;> ring)
      | rfl
      | ring

/-- Scaling the transform factor commutes with the relative cubic curve branch of
the transformer. -/
theorem texec_c (k sc : ℚ) (hk : 0 ≤ k) (st : TState) (args : List ℚ) :
    transExec (k * sc) (scaleTState k st) ['c'] args =
      scaleTState k (transExec sc st ['c'] args) := by
  rcases args with _ | ⟨a1, _ | ⟨a2, _ | ⟨a3, _ | ⟨a4, _ | ⟨a5, _ | ⟨a6, _ | ⟨a7, _ | t⟩⟩⟩⟩⟩⟩⟩
  all_goals try rfl
  all_goals unfold transExec
  all_goals
    simp only [if_neg (show ¬ ((['c'] == ['M']) = true) by decide),
      if_neg (show ¬ ((['c'] == ['m']) = true) by decide),
      if_pos (show ((['c'] == ['c']) = true) by decide)]
    simp only [scaleTState, List.map_append, List.map_cons, List.map_nil, scaleDir,
      TState.mk.injEq]
    try and_intros
    all_goals
      first
      | (refine qbbAdd_scale2 k hk _ _ _ _ _ ?_ ?_ <;> ring)
      | rfl
      | ring

/-- Scaling the transform factor commutes with the absolute cubic curve branch of
the transformer. -/
theorem texec_C (k sc : ℚ) (hk : 0 ≤ k) (st : TState) (args : List ℚ) :
    transExec (k * sc) (scaleTState k st) ['C'] args =
      scaleTState k (transExec sc st ['C'] args) := by
  rcases args with _ | ⟨a1, _ | ⟨a2, _ | ⟨a3, _ | ⟨a4, _ | ⟨a5, _ | ⟨a6, _ | t⟩⟩⟩⟩⟩⟩
  all_goals try rfl
  all_goals unfold transExec
  all_goals
    simp only [if_neg (show ¬ ((['C'] == ['M']) = true) by decide),
      if_neg (show ¬ ((['C'] == ['m']) = true) by decide),
      if_neg (show ¬ ((['C'] == ['c']) = true) by decide),
      if_pos (show ((['C'] == ['C']) = true) by decide)]
    simp only [scaleTState, List.map_append, List.map_cons, List.map_nil, scaleDir,
      TState.mk.injEq]
    try and_intros
    all_goals
      first
      | (refine qbbAdd_scale2 k hk _ _ _ _ _ ?_ ?_ <;> ring)
      | rfl
      | ring

/-- Scaling the transform factor commutes with the relative line branch of
the transformer. -/
theorem texec_l (k sc : ℚ) (hk : 0 ≤ k) (st : TState) (args : List ℚ) :
    transExec (k * sc) (scaleTState k st) ['l'] args =
      scaleTState k (transExec sc st ['l'] args) := by
  rcases args with _ | ⟨a1, _ | ⟨a2, _ | t⟩⟩
  all_goals try rfl
  all_goals unfold transExec
  all_goals
    simp only [if_neg (show ¬ ((['l'] == ['M']) = true) by decide),
      if_neg (show ¬ ((['l'] == ['m']) = true) by decide),
      if_neg (show ¬ ((['l'] == ['c']) = true) by decide),
      if_neg (show ¬ ((['l'] == ['C']) = true) by decide),
      if_pos (show ((['l'] == ['l']) = true) by decide)]
    simp only [scaleTState, List.map_append, List.map_cons, List.map_nil, scaleDir,
      TState.mk.injEq]
    try and_intros
    all_goals
      first
      | (refine qbbAdd_scale2 k hk _ _ _ _ _ ?_ ?_ <;> ring)
      | rfl
      | ring

/-- Scaling the transform factor commutes with the absolute line branch of
the transformer. -/
theorem texec_L (k sc : ℚ) (hk : 0 ≤ k) (st : TState) (args : List ℚ) :
    transExec (k * sc) (scaleTState k st) ['L'] args =
      scaleTState k (transExec sc st ['L'] args) := by
  rcases args with _ | ⟨a1, _ | ⟨a2, _ | t⟩⟩
  all_goals try rfl
  all_goals unfold transExec
  all_goals
    simp only [if_neg (show ¬ ((['L'] == ['M']) = true) by decide),
      if_neg (show ¬ ((['L'] == ['m']) = true) by decide),
      if_neg (show ¬ ((['L'] == ['c']) = true) by decide),
      if_neg (show ¬ ((['L'] == ['C']) = true) by decide),
      if_neg (show ¬ ((['L'] == ['l']) = true) by decide),
      if_pos (show ((['L'] == ['L']) = true) by decide)]
    simp only [scaleTState, List.map_append, List.map_cons, List.map_nil, scaleDir,
      TState.mk.injEq]
    try and_intros
    all_goals
      first
      | (refine qbbAdd_scale2 k hk _ _ _ _ _ ?_ ?_ <;> ring)
      | rfl
      | ring

/-- Scaling the transform factor commutes with the relative horizontal branch of
the transformer. -/
theorem texec_h (k sc : ℚ) (hk : 0 ≤ k) (st : TState) (args : List ℚ) :
    transExec (k * sc) (scaleTState k st) ['h'] args =
      scaleTState k (transExec sc st ['h'] args) := by
  rcases args with _ | ⟨a1, _ | t⟩
  all_goals try rfl
  all_goals unfold transExec
  all_goals
    simp only [if_neg (show ¬ ((['h'] == ['M']) = true) by decide),
      if_neg (show ¬ ((['h'] == ['m']) = true) by decide),
      if_neg (show ¬ ((['h'] == ['c']) = true) by decide),
      if_neg (show ¬ ((['h'] == ['C']) = true) by decide),
      if_neg (show ¬ ((['h'] == ['l']) = true) by decide),
      if_neg (show ¬ ((['h'] == ['L']) = true) by decide),
      if_pos (show ((['h'] == ['h']) = true) by decide)]
    simp only [scaleTState, List.map_append, List.map_cons, List.map_nil, scaleDir,
      TState.mk.injEq]
    try and_intros
    all_goals
      first
      | (refine qbbAdd_scale2 k hk _ _ _ _ _ ?_ ?_ <;> ring)
      | rfl
      | ring

/-- Scaling the transform factor commutes with the relative vertical branch of
the transformer. -/
theorem texec_v (k sc : ℚ) (hk : 0 ≤ k) (st : TState) (args : List ℚ) :
    transExec (k * sc) (scaleTState k st) ['v'] args =
      scaleTState k (transExec sc st ['v'] args) := by
  rcases args with _ | ⟨a1, _ | t⟩
  all_goals try rfl
  all_goals unfold transExec
  all_goals
    simp only [if_neg (show ¬ ((['v'] == ['M']) = true) by decide),
      if_neg (show ¬ ((['v'] == ['m']) = true) by decide),
      if_neg (show ¬ ((['v'] == ['c']) = true) by decide),
      if_neg (show ¬ ((['v'] == ['C']) = true) by decide),
      if_neg (show ¬ ((['v'] == ['l']) = true) by decide),
      if_neg (show ¬ ((['v'] == ['L']) = true) by decide),
      if_neg (show ¬ ((['v'] == ['h']) = true) by decide),
      if_pos (show ((['v'] == ['v']) = true) by decide)]
    simp only [scaleTState, List.map_append, List.map_cons, List.map_nil, scaleDir,
      TState.mk.injEq]
    try and_intros
    all_goals
      first
      | (refine qbbAdd_scale2 k hk _ _ _ _ _ ?_ ?_ <;> ring)
      | rfl
      | ring

/-- Scaling the transform factor commutes with the lowercase close branch of
the transformer. -/
theorem texec_z (k sc : ℚ) (hk : 0 ≤ k) (st : TState) (args : List ℚ) :
    transExec (k * sc) (scaleTState k st) ['z'] args =
      scaleTState k (transExec sc st ['z'] args) := by
  unfold transExec
  simp only [if_neg (show ¬ ((['z'] == ['M']) = true) by decide),
      if_neg (show ¬ ((['z'] == ['m']) = true) by decide),
      if_neg (show ¬ ((['z'] == ['c']) = true) by decide),
      if_neg (show ¬ ((['z'] == ['C']) = true) by decide),
      if_neg (show ¬ ((['z'] == ['l']) = true) by decide),
      if_neg (show ¬ ((['z'] == ['L']) = true) by decide),
      if_neg (show ¬ ((['z'] == ['h']) = true) by decide),
      if_neg (show ¬ ((['z'] == ['v']) = true) by decide),
      if_pos (show ((['z'] == ['z'] || ['z'] == ['Z']) = true) by decide)]
  simp only [scaleTState, List.map_append, List.map_cons, List.map_nil, scaleDir,
    TState.mk.injEq]
  try and_intros
  all_goals
    first
    | (refine qbbAdd_scale2 k hk _ _ _ _ _ ?_ ?_ <;> ring)
    | rfl
    | ring

/-- Scaling the transform factor commutes with the uppercase close branch of
the transformer. -/
theorem texec_Z (k sc : ℚ) (hk : 0 ≤ k) (st : TState) (args : List ℚ) :
    transExec (k * sc) (scaleTState k st) ['Z'] args =
      scaleTState k (transExec sc st ['Z'] args) := by
  unfold transExec
  simp only [if_neg (show ¬ ((['Z'] == ['M']) = true) by decide),
      if_neg (show ¬ ((['Z'] == ['m']) = true) by decide),
      if_neg (show ¬ ((['Z'] == ['c']) = true) by decide),
      if_neg (show ¬ ((['Z'] == ['C']) = true) by decide),
      if_neg (show ¬ ((['Z'] == ['l']) = true) by decide),
      if_neg (show ¬ ((['Z'] == ['L']) = true) by decide),
      if_neg (show ¬ ((['Z'] == ['h']) = true) by decide),
      if_neg (show ¬ ((['Z'] == ['v']) = true) by decide),
      if_pos (show ((['Z'] == ['z'] || ['Z'] == ['Z']) = true) by decide)]
  simp only [scaleTState, List.map_append, List.map_cons, List.map_nil, scaleDir,
    TState.mk.injEq]
  try and_intros
  all_goals
    first
    | (refine qbbAdd_scale2 k hk _ _ _ _ _ ?_ ?_ <;> ring)
    | rfl
    | ring

/-- Scaling the transform factor by a nonnegative constant scales every
coordinate emitted by one transformer step and leaves the source-unit pen
state and point count unchanged. -/
theorem transExec_scale (k sc : ℚ) (hk : 0 ≤ k) (st : TState) (c : List Char)
    (args : List ℚ) :
    transExec (k * sc) (scaleTState k st) c args =
      scaleTState k (transExec sc st c args) := by
  by_cases h1 : c = ['M']
  · subst h1; exact texec_M k sc hk st args
  by_cases h2 : c = ['m']
  · subst h2; exact texec_m k sc hk st args
  by_cases h3 : c = ['c']
  · subst h3; exact texec_c k sc hk st args
  by_cases h4 : c = ['C']
  · subst h4; exact texec_C k sc hk st args
  by_cases h5 : c = ['l']
  · subst h5; exact texec_l k sc hk st args
  by_cases h6 : c = ['L']
  · subst h6; exact texec_L k sc hk st args
  by_cases h7 : c = ['h']
  · subst h7; exact texec_h k sc hk st args
  by_cases h8 : c = ['v']
  · subst h8; exact texec_v k sc hk st args
  by_cases h9 : c = ['z']
  · subst h9; exact texec_z k sc hk st args
  by_cases h10 : c = ['Z']
  · subst h10; exact texec_Z k sc hk st args
  unfold transExec
  simp only [if_neg (show ¬ ((c == ['M']) = true) from by simp [beq_iff_eq, h1]),
    if_neg (show ¬ ((c == ['m']) = true) from by simp [beq_iff_eq, h2]),
    if_neg (show ¬ ((c == ['c']) = true) from by simp [beq_iff_eq, h3]),
    if_neg (show ¬ ((c == ['C']) = true) from by simp [beq_iff_eq, h4]),
    if_neg (show ¬ ((c == ['l']) = true) from by simp [beq_iff_eq, h5]),
    if_neg (show ¬ ((c == ['L']) = true) from by simp [beq_iff_eq, h6]),
    if_neg (show ¬ ((c == ['h']) = true) from by simp [beq_iff_eq, h7]),
    if_neg (show ¬ ((c == ['v']) = true) from by simp [beq_iff_eq, h8]),
    if_neg (show ¬ ((c == ['z'] || c == ['Z']) = true) from by
      simp [beq_iff_eq, h9, h10])]

/-- Scaling the transform factor commutes with one iteration of the
transform loop, including the insufficient-argument skip. -/
theorem transStep_scale (k sc : ℚ) (hk : 0 ≤ k) (st : TState)
    (p : List Char × List ℚ) :
    transStep (k * sc) (scaleTState k st) p = scaleTState k (transStep sc st p) := by
  obtain ⟨c, args⟩ := p
  simp only [transStep]
  cases hn : transNeeded c with
  | none => exact transExec_scale k sc hk st c args
  | some n =>
    by_cases hl : args.length < n
    · simp only [if_pos hl]
    · simp only [if_neg hl]
      exact transExec_scale k sc hk st c args

/-- Scaling the transform factor commutes with the transform loop from
any start state. -/
theorem runPath_scale_aux (k sc : ℚ) (hk : 0 ≤ k)
    (cmds : List (List Char × List ℚ)) :
    ∀ st : TState,
      cmds.foldl (transStep (k * sc)) (scaleTState k st) =
        scaleTState k (cmds.foldl (transStep sc) st) := by
  induction cmds with
  | nil => intro st; rfl
  | cons p ps ih =>
    intro st
    simp only [List.foldl_cons]
    rw [transStep_scale k sc hk st p]
    exact ih (transStep sc st p)

/-- Scaling the transform factor scales the whole per-path result. -/
theorem runPath_scale (k sc : ℚ) (hk : 0 ≤ k) (cmds : List (List Char × List ℚ)) :
    runPath (k * sc) cmds = scaleTState k (runPath sc cmds) := by
  rw [runPath, runPath]
  have h0 : (⟨0, 0, 0, 0, [], 0, none⟩ : TState) =
      scaleTState k ⟨0, 0, 0, 0, [], 0, none⟩ := rfl
  conv_lhs => rw [h0]
  exact runPath_scale_aux k sc hk cmds _

/-- Claim C2: for every parsed command sequence and every positive factor
k, scaling the target width by k while the source width is fixed (so the
transform factor becomes k times t over w) scales every emitted numeric
coordinate, of move-to and line-to directives, of curve control points
and endpoints, and of the bounding box, by exactly k in exact arithmetic,
while the point count and the source-unit pen state are unchanged; the
printed three-decimal values are the roundings of these exactly scaled
coordinates. -/
theorem c2_scale_invariant (cmds : List (List Char × List ℚ)) (w t k : ℚ)
    (hk : 0 < k) :
    runPath ((k * t) / w) cmds = scaleTState k (runPath (t / w) cmds) := by
  rw [mul_div_assoc]
  exact runPath_scale k (t / w) hk.le cmds

/-- Witness for C2 at a concrete input: doubling a target width of 10
over a source width of 100 doubles the emitted move-to coordinates. -/
theorem c2_scale_invariant_w :
    runPath ((2 * 10) / 100) [(['M'], [500, 500])] =
      scaleTState 2 (runPath (10 / 100) [(['M'], [500, 500])]) :=
  c2_scale_invariant [(['M'], [500, 500])] 100 10 2 (by norm_num)

end SvgTikz

namespace TexPre

/-- Claim C9: the macro preprocessor is a pure total deterministic
function from input text to output text.  It is defined here as a total
function (each rewriting pass consumes fuel bounded by the input length,
so evaluation terminates on every input and raises nothing), it reads no
state other than its argument, and consequently any two runs on equal
input strings produce equal outputs. -/
theorem preprocess_deterministic : ∀ s t : String, s = t →
    preprocess s = preprocess t := by
  intro s t h
  rw [h]

/-- Witness for C9 at a concrete input string. -/
theorem preprocess_deterministic_w :
    preprocess "\\covd v" = preprocess "\\covd v" :=
  preprocess_deterministic "\\covd v" "\\covd v" rfl

end TexPre

namespace SvgTikz

/-- Digits are not sign characters. -/
theorem digit_not_sign (c : Char) (h : c.isDigit = true) :
    (c == '+' || c == '-') = false := by
  rcases hb : (c == '+' || c == '-') with _ | _
  · rfl
  · exfalso
    rcases Bool.or_eq_true_iff.mp hb with h1 | h1 <;>
      rw [beq_iff_eq] at h1 <;> subst h1 <;> exact absurd h (by decide)

/-- Digits are not whitespace. -/
theorem digit_not_space (c : Char) (h : c.isDigit = true) :
    isSpaceCh c = false := by
  rcases hb : isSpaceCh c with _ | _
  · rfl
  · exfalso
    simp only [isSpaceCh, Bool.or_eq_true_iff, beq_iff_eq] at hb
    rcases hb with ((((h1 | h1) | h1) | h1) | h1) | h1 <;> subst h1 <;>
      exact absurd h (by decide)

/-- Every element of a takeWhile result satisfies the predicate. -/
theorem all_takeWhile (p : Char → Bool) (l : List Char) :
    (l.takeWhile p).all p = true := by
  induction l with
  | nil => rfl
  | cons c r ih =>
    rcases hp : p c with _ | _
    · simp [List.takeWhile, hp]
    · simp [List.takeWhile, hp, ih]

/-- takeWhile and dropWhile on an append whose first part satisfies the
predicate everywhere and whose second part does not start with it. -/
theorem tw_dw_append (p : Char → Bool) (l1 l2 : List Char)
    (h1 : l1.all p = true) (h2 : ∀ c, l2.head? = some c → p c = false) :
    (l1 ++ l2).takeWhile p = l1 ∧ (l1 ++ l2).dropWhile p = l2 := by
  induction l1 with
  | nil =>
    cases l2 with
    | nil => exact ⟨rfl, rfl⟩
    | cons c r => simp [List.takeWhile, List.dropWhile, h2 c rfl]
  | cons a l1 ih =>
    rw [List.all_cons, Bool.and_eq_true] at h1
    have := ih h1.2
    simp [List.takeWhile, List.dropWhile, h1.1, this.1, this.2]

/-- dropWhile leaves a list alone when no element satisfies the
predicate. -/
theorem dropWhile_noop (p : Char → Bool) (l : List Char)
    (h : ∀ c ∈ l, p c = false) : l.dropWhile p = l := by
  cases l with
  | nil => rfl
  | cons c r => simp [List.dropWhile, h c (List.mem_cons_self c r)]

/-- The whitespace strip of pyFloat leaves a space-free list alone. -/
theorem strip_noop (l : List Char) (h : ∀ c ∈ l, isSpaceCh c = false) :
    ((l.dropWhile isSpaceCh).reverse.dropWhile isSpaceCh).reverse = l := by
  rw [dropWhile_noop _ l h]
  rw [dropWhile_noop _ l.reverse (fun c hc => h c (List.mem_reverse.mp hc))]
  exact List.reverse_reverse l

end SvgTikz

namespace SvgTikz

/-- The sign part split off by signSplit is empty or a single sign. -/
theorem signSplit_shape (cs : List Char) :
    (signSplit cs).1 = [] ∨ (signSplit cs).1 = ['+'] ∨ (signSplit cs).1 = ['-'] := by
  cases cs with
  | nil => exact Or.inl rfl
  | cons c r =>
    simp only [signSplit]
    split_ifs with h
    · rcases Bool.or_eq_true_iff.mp h with h1 | h1 <;> rw [beq_iff_eq] at h1 <;>
        subst h1
      · exact Or.inr (Or.inl rfl)
      · exact Or.inr (Or.inr rfl)
    · exact Or.inl rfl

/-- The remainder of signSplit is the input without the split sign. -/
theorem signSplit_append (cs : List Char) :
    (signSplit cs).1 ++ (signSplit cs).2 = cs := by
  cases cs with
  | nil => rfl
  | cons c r =>
    simp only [signSplit]
    split_ifs with h
    · rfl
    · rfl

end SvgTikz

namespace SvgTikz

end SvgTikz

namespace SvgTikz

/-- A list whose optional head is a given element starts with it. -/
theorem take_one_of_head (cs : List Char) (c : Char) (h : cs.head? = some c) :
    cs.take 1 = [c] ∧ cs = c :: cs.tail := by
  rcases cs with _ | ⟨c0, r⟩
  · exact absurd h (by simp)
  · rw [List.head?_cons, Option.some_inj] at h
    subst h
    exact ⟨rfl, rfl⟩

/-- The matched exponent text of matchExp is empty or a full exponent
form. -/
theorem matchExp_shape (cs : List Char) :
    (matchExp cs).1 = [] ∨ expForm (matchExp cs).1 := by
  simp only [matchExp]
  split_ifs with he hds
  · exact Or.inl rfl
  · right
    have hne : (signSplit cs.tail).2.takeWhile Char.isDigit ≠ [] := by
      intro h0
      rw [← List.isEmpty_iff] at h0
      rw [h0] at hds
      exact hds rfl
    rcases he with he | he <;>
      obtain ⟨ht1, _⟩ := take_one_of_head cs _ he
    · exact ⟨'e', (signSplit cs.tail).1, (signSplit cs.tail).2.takeWhile Char.isDigit,
        by rw [ht1]; simp, Or.inl rfl, signSplit_shape cs.tail, hne,
        all_takeWhile Char.isDigit _⟩
    · exact ⟨'E', (signSplit cs.tail).1, (signSplit cs.tail).2.takeWhile Char.isDigit,
        by rw [ht1]; simp, Or.inr rfl, signSplit_shape cs.tail, hne,
        all_takeWhile Char.isDigit _⟩
  · exact Or.inl rfl

/-- The float-exponent parser accepts every exponent text the tokenizer
matches. -/
theorem pyExpVal_expForm (ex : List Char) (h : expForm ex) :
    (pyExpVal ex).isSome = true := by
  obtain ⟨e, sg, ds, rfl, he, hsg, hds, hall⟩ := h
  have he2 : (e :: sg ++ ds).head? = some 'e' ∨ (e :: sg ++ ds).head? = some 'E' := by
    rcases he with rfl | rfl
    · exact Or.inl (by simp)
    · exact Or.inr (by simp)
  have htw : ds.takeWhile Char.isDigit = ds :=
    List.takeWhile_eq_self_iff.mpr (fun x hx => List.all_eq_true.mp hall x hx)
  have hdw : ds.dropWhile Char.isDigit = [] :=
    List.dropWhile_eq_nil_iff.mpr (fun x hx => List.all_eq_true.mp hall x hx)
  have hss : signSplit (sg ++ ds) = (sg, ds) := by
    rcases hsg with rfl | rfl | rfl
    · rcases ds with _ | ⟨d, ds2⟩
      · exact absurd rfl hds
      · have hd : d.isDigit = true := by
          rw [List.all_cons, Bool.and_eq_true] at hall
          exact hall.1
        simp [signSplit, digit_not_sign d hd]
    · simp [signSplit]
    · simp [signSplit]
  have hne : ds.isEmpty = false := by
    rcases ds with _ | ⟨d, ds2⟩
    · exact absurd rfl hds
    · rfl
  simp only [List.cons_append, List.head?_cons] at he2
  simp only [pyExpVal, List.cons_append, List.head?_cons, List.tail_cons, hss, htw, hdw]
  rw [if_neg (by simp), if_pos he2]
  simp only [hne, Bool.false_eq_true, if_false, List.isEmpty_nil, if_true]
  rfl

/-- The head of an optional exponent text is never a digit or a dot. -/
theorem expTail_head (ex : List Char) (hex : ex = [] ∨ expForm ex) :
    (∀ c, ex.head? = some c → Char.isDigit c = false) ∧ ¬ ex.head? = some '.' := by
  rcases hex with rfl | ⟨e, sgl, ds, rfl, he, hsgl, hds, hall⟩
  · exact ⟨fun c hc => absurd hc (by simp), by simp⟩
  · constructor
    · intro c hc
      have hce : e = c := by simpa using hc
      subst hce
      rcases he with rfl | rfl <;> decide
    · intro hc
      have hce : e = '.' := by simpa using hc
      rcases he with rfl | rfl <;> exact absurd hce (by decide)

/-- The float parser accepts an exponent value wherever the tokenizer
matched an optional exponent. -/
theorem pyExpVal_opt (ex : List Char) (hex : ex = [] ∨ expForm ex) :
    (pyExpVal ex).isSome = true := by
  rcases hex with rfl | hf
  · rfl
  · exact pyExpVal_expForm ex hf

/-- The mantissa parser accepts a digit run followed by an optional
exponent. -/
theorem pyMant_int (sg : ℚ) (ds1 ex : List Char) (hds : ds1 ≠ [])
    (hall : ds1.all Char.isDigit = true) (hex : ex = [] ∨ expForm ex) :
    (pyMant sg (ds1 ++ ex)).isSome = true := by
  obtain ⟨hhead, hdot⟩ := expTail_head ex hex
  obtain ⟨htw, hdw⟩ := tw_dw_append Char.isDigit ds1 ex hall hhead
  have hne : ds1.isEmpty = false := by
    rcases ds1 with _ | ⟨d, r⟩
    · exact absurd rfl hds
    · rfl
  simp only [pyMant, htw, hdw]
  rw [if_neg hdot]
  rw [if_neg (by simp [hne])]
  rcases hv : pyExpVal ex with _ | v
  · have := pyExpVal_opt ex hex
    rw [hv] at this
    exact absurd this (by decide)
  · rfl

/-- The mantissa parser accepts an optional digit run, a dot, a nonempty
digit run and an optional exponent. -/
theorem pyMant_frac (sg : ℚ) (ds1 ds2 ex : List Char)
    (hall1 : ds1.all Char.isDigit = true) (hds2 : ds2 ≠ [])
    (hall2 : ds2.all Char.isDigit = true) (hex : ex = [] ∨ expForm ex) :
    (pyMant sg (ds1 ++ '.' :: ds2 ++ ex)).isSome = true := by
  obtain ⟨hhead, _⟩ := expTail_head ex hex
  obtain ⟨htw1, hdw1⟩ := tw_dw_append Char.isDigit ds1 ('.' :: (ds2 ++ ex)) hall1
    (by
      intro c hc
      have : c = '.' := by simpa using hc.symm
      subst this
      decide)
  obtain ⟨htw2, hdw2⟩ := tw_dw_append Char.isDigit ds2 ex hall2 hhead
  have hne2 : ds2.isEmpty = false := by
    rcases ds2 with _ | ⟨d, r⟩
    · exact absurd rfl hds2
    · rfl
  simp only [List.append_assoc, List.cons_append]
  simp only [pyMant, htw1, hdw1, List.head?_cons, List.tail_cons, htw2, hdw2]
  rw [if_pos trivial]
  rw [if_neg (by
    intro hand
    rw [hne2] at hand
    exact absurd hand.2 (by decide))]
  rcases hv : pyExpVal ex with _ | v
  · have := pyExpVal_opt ex hex
    rw [hv] at this
    exact absurd this (by decide)
  · rfl

/-- A list with a false isEmpty test is not nil. -/
theorem ne_nil_of_not_isEmpty (l : List Char) (h : ¬ l.isEmpty = true) :
    l ≠ [] := by
  intro h0
  subst h0
  exact h rfl

/-- Whitespace-freeness is preserved by append. -/
theorem nospace_append (l1 l2 : List Char)
    (h1 : ∀ c ∈ l1, isSpaceCh c = false) (h2 : ∀ c ∈ l2, isSpaceCh c = false) :
    ∀ c ∈ l1 ++ l2, isSpaceCh c = false := by
  intro c hc
  rcases List.mem_append.mp hc with hc | hc
  · exact h1 c hc
  · exact h2 c hc

/-- Whitespace-freeness is preserved by consing a non-space character. -/
theorem nospace_cons (a : Char) (l : List Char) (ha : isSpaceCh a = false)
    (h : ∀ c ∈ l, isSpaceCh c = false) : ∀ c ∈ a :: l, isSpaceCh c = false := by
  intro c hc
  rcases List.mem_cons.mp hc with rfl | hc
  · exact ha
  · exact h c hc

/-- Digit runs contain no whitespace. -/
theorem nospace_digits (l : List Char) (h : l.all Char.isDigit = true) :
    ∀ c ∈ l, isSpaceCh c = false :=
  fun c hc => digit_not_space c (List.all_eq_true.mp h c hc)

/-- Sign prefixes contain no whitespace. -/
theorem nospace_sign (l : List Char) (h : l = [] ∨ l = ['+'] ∨ l = ['-']) :
    ∀ c ∈ l, isSpaceCh c = false := by
  rcases h with rfl | rfl | rfl
  · intro c hc
    exact absurd hc (by simp)
  · intro c hc
    have hc2 : c = '+' := by simpa using hc
    subst hc2
    decide
  · intro c hc
    have hc2 : c = '-' := by simpa using hc
    subst hc2
    decide

/-- Exponent texts contain no whitespace. -/
theorem nospace_exp (l : List Char) (h : l = [] ∨ expForm l) :
    ∀ c ∈ l, isSpaceCh c = false := by
  rcases h with rfl | ⟨e, sg, ds, rfl, he, hsg, hds, hall⟩
  · intro c hc
    exact absurd hc (by simp)
  · intro c hc
    rcases List.mem_append.mp hc with hc | hc
    · rcases List.mem_cons.mp hc with rfl | hc
      · rcases he with rfl | rfl <;> decide
      · exact nospace_sign sg hsg c hc
    · exact nospace_digits ds hall c hc

/-- The head of an all-digit list is a digit. -/
theorem head_digit_of_all (ds : List Char) (hall : ds.all Char.isDigit = true) :
    ∀ c, ds.head? = some c → c.isDigit = true := by
  cases ds with
  | nil =>
    intro c hc
    exact absurd hc (by simp)
  | cons d r =>
    intro c hc
    rw [List.head?_cons, Option.some_inj] at hc
    subst hc
    rw [List.all_cons, Bool.and_eq_true] at hall
    exact hall.1

/-- A nonempty digit run followed by anything starts with a digit. -/
theorem head_digits_pre (ds T : List Char) (hds : ds ≠ [])
    (hall : ds.all Char.isDigit = true) :
    ∀ c, (ds ++ T).head? = some c → (c.isDigit = true ∨ c = '.') := by
  cases ds with
  | nil => exact absurd rfl hds
  | cons d r =>
    intro c hc
    rw [List.cons_append, List.head?_cons, Option.some_inj] at hc
    subst hc
    rw [List.all_cons, Bool.and_eq_true] at hall
    exact Or.inl hall.1

/-- A digit run followed by a dot starts with a digit or the dot. -/
theorem head_digits_dot (ds R : List Char) (hall : ds.all Char.isDigit = true) :
    ∀ c, (ds ++ '.' :: R).head? = some c → (c.isDigit = true ∨ c = '.') := by
  cases ds with
  | nil =>
    intro c hc
    rw [List.nil_append, List.head?_cons, Option.some_inj] at hc
    exact Or.inr hc.symm
  | cons d r =>
    intro c hc
    rw [List.cons_append, List.head?_cons, Option.some_inj] at hc
    subst hc
    rw [List.all_cons, Bool.and_eq_true] at hall
    exact Or.inl hall.1

/-- Python float sign handling on a sign prefix followed by text starting
with a digit or a dot: the sign is consumed and becomes the factor. -/
theorem pySignQ_of_shape (s1 m : List Char)
    (hs : s1 = [] ∨ s1 = ['+'] ∨ s1 = ['-'])
    (hm : ∀ c, m.head? = some c → (c.isDigit = true ∨ c = '.')) :
    pySignQ (s1 ++ m) = (if s1 = ['-'] then (-1 : ℚ) else 1, m) := by
  rcases hs with rfl | rfl | rfl
  · rw [List.nil_append, if_neg (by simp)]
    cases m with
    | nil => rfl
    | cons c r =>
      rcases hm c rfl with hd | hd
      · have h12 := Bool.or_eq_false_iff.mp (digit_not_sign c hd)
        simp [pySignQ, h12.1, h12.2]
      · subst hd
        simp [pySignQ]
  · rw [if_neg (by decide)]
    simp [pySignQ]
  · rw [if_pos rfl]
    simp [pySignQ]

/-- Python float accepts a sign prefix and a mantissa text accepted by the
mantissa parser, provided the text is whitespace-free and starts with a
digit or a dot. -/
theorem pyFloat_of_parts (s1 m : List Char)
    (hs : s1 = [] ∨ s1 = ['+'] ∨ s1 = ['-'])
    (hhd : ∀ c, m.head? = some c → (c.isDigit = true ∨ c = '.'))
    (hns : ∀ c ∈ s1 ++ m, isSpaceCh c = false)
    (hm : (pyMant (if s1 = ['-'] then (-1 : ℚ) else 1) m).isSome = true) :
    (pyFloat (s1 ++ m)).isSome = true := by
  simp only [pyFloat]
  rw [strip_noop _ hns, pySignQ_of_shape s1 m hs hhd]
  exact hm

/-- Every numeric token matched by the tokenizing regex is accepted by
Python float conversion. -/
theorem matchNum_pyFloat (cs tok rest : List Char)
    (h : matchNum cs = some (tok, rest)) :
    (pyFloat tok).isSome = true := by
  have hsgn := signSplit_shape cs
  simp only [matchNum] at h
  set s2 := (signSplit cs).2 with hs2d
  set ds1 := List.takeWhile Char.isDigit s2 with hds1d
  set r1 := List.dropWhile Char.isDigit s2 with hr1d
  set ds2 := List.takeWhile Char.isDigit r1.tail with hds2d
  set r3 := List.dropWhile Char.isDigit r1.tail with hr3d
  have hall1 : ds1.all Char.isDigit = true := by
    rw [hds1d]
    exact all_takeWhile _ _
  have hall2 : ds2.all Char.isDigit = true := by
    rw [hds2d]
    exact all_takeWhile _ _
  split_ifs at h with hdot hds2e hds1e hds1e2
  · rw [Option.some_inj, Prod.mk.injEq] at h
    obtain ⟨h5, -⟩ := h
    subst h5
    have hds1ne : ds1 ≠ [] := ne_nil_of_not_isEmpty ds1 hds1e
    refine pyFloat_of_parts _ _ hsgn ?_ ?_ ?_
    · intro c hc
      exact Or.inl (head_digit_of_all ds1 hall1 c hc)
    · exact nospace_append _ _ (nospace_sign _ hsgn) (nospace_digits _ hall1)
    · have := pyMant_int (if (signSplit cs).1 = ['-'] then (-1 : ℚ) else 1)
        ds1 [] hds1ne hall1 (Or.inl rfl)
      simp only [List.append_nil] at this
      exact this
  · rw [Option.some_inj, Prod.mk.injEq] at h
    obtain ⟨h5, -⟩ := h
    subst h5
    have hds2ne : ds2 ≠ [] := ne_nil_of_not_isEmpty ds2 hds2e
    have hex := matchExp_shape r3
    simp only [List.append_assoc, List.cons_append]
    refine pyFloat_of_parts _ _ hsgn ?_ ?_ ?_
    · exact head_digits_dot ds1 _ hall1
    · refine nospace_append _ _ (nospace_sign _ hsgn) ?_
      refine nospace_append _ _ (nospace_digits _ hall1) ?_
      refine nospace_cons _ _ (by decide) ?_
      exact nospace_append _ _ (nospace_digits _ hall2) (nospace_exp _ hex)
    · have := pyMant_frac (if (signSplit cs).1 = ['-'] then (-1 : ℚ) else 1)
        ds1 ds2 (matchExp r3).1 hall1 hds2ne hall2 hex
      simp only [List.append_assoc, List.cons_append] at this
      exact this
  · rw [Option.some_inj, Prod.mk.injEq] at h
    obtain ⟨h5, -⟩ := h
    subst h5
    have hds1ne : ds1 ≠ [] := ne_nil_of_not_isEmpty ds1 hds1e2
    have hex := matchExp_shape r1
    simp only [List.append_assoc]
    refine pyFloat_of_parts _ _ hsgn ?_ ?_ ?_
    · exact head_digits_pre ds1 _ hds1ne hall1
    · exact nospace_append _ _ (nospace_sign _ hsgn)
        (nospace_append _ _ (nospace_digits _ hall1) (nospace_exp _ hex))
    · exact pyMant_int (if (signSplit cs).1 = ['-'] then (-1 : ℚ) else 1)
        ds1 (matchExp r1).1 hds1ne hall1 hex

/-- Single command letters pass the isalpha test of the parser loop. -/
theorem isalpha_of_cmd (c : Char) (hc : isCmdChar c = true) :
    isalphaStr [c] = true := by
  have hm : c ∈ ['M', 'm', 'C', 'c', 'L', 'l', 'H', 'h', 'V', 'v',
      'Z', 'z', 'S', 's', 'Q', 'q', 'T', 't', 'A', 'a'] := by
    simpa [isCmdChar] using hc
  fin_cases hm <;> decide

/-- Every token produced by the fuelled tokenizer scan is a command letter
or a numeric literal accepted by float. -/
theorem tokenizeAux_ok (m : ℕ) : ∀ cs tok, tok ∈ tokenizeAux m cs →
    isalphaStr tok = true ∨ (pyFloat tok).isSome = true := by
  induction m with
  | zero =>
    intro cs tok h
    exact absurd h (by simp [tokenizeAux])
  | succ f ih =>
    intro cs tok h
    cases cs with
    | nil => exact absurd h (by simp [tokenizeAux])
    | cons c r =>
      simp only [tokenizeAux] at h
      split_ifs at h with hc
      · rcases List.mem_cons.mp h with rfl | h2
        · exact Or.inl (isalpha_of_cmd c hc)
        · exact ih r tok h2
      · rcases hm : matchNum (c :: r) with _ | ⟨t2, rest2⟩ <;> rw [hm] at h
        · exact ih r tok h
        · have h3 : tok ∈ t2 :: tokenizeAux f rest2 := h
          rcases List.mem_cons.mp h3 with rfl | h2
          · exact Or.inr (matchNum_pyFloat (c :: r) tok rest2 hm)
          · exact ih rest2 tok h2

/-- Every token of the tokenizer is a command letter or a numeric literal
accepted by float. -/
theorem tokenize_ok (d : List Char) : ∀ tok ∈ tokenize d,
    isalphaStr tok = true ∨ (pyFloat tok).isSome = true :=
  fun tok h => tokenizeAux_ok d.length d tok h

/-- The parser loop step never fails on a command letter or a numeric
literal accepted by float. -/
theorem pStep_some (st : PState) (tok : List Char)
    (h : isalphaStr tok = true ∨ (pyFloat tok).isSome = true) :
    (parseStep st tok).isSome = true := by
  rcases h with h | h
  · simp [parseStep, h]
  · rcases hf : pyFloat tok with _ | q
    · rw [hf] at h
      exact absurd h (by decide)
    · rcases hcur : st.current with _ | c <;>
        simp [parseStep, hf, hcur, apply_ite Option.isSome]

/-- The token fold of parse_svg_path succeeds on any token list whose
members are command letters or float-accepted numeric literals. -/
theorem foldlM_some (toks : List (List Char))
    (hall : ∀ tok ∈ toks, isalphaStr tok = true ∨ (pyFloat tok).isSome = true) :
    ∀ st : PState, (toks.foldlM parseStep st).isSome = true := by
  induction toks with
  | nil =>
    intro st
    rfl
  | cons t r ih =>
    intro st
    rw [List.foldlM_cons]
    rcases hs : parseStep st t with _ | st2
    · have := pStep_some st t (hall t (by simp))
      rw [hs] at this
      exact absurd this (by decide)
    · rw [Option.bind_eq_bind, Option.some_bind]
      exact ih (fun tok h2 => hall tok (by simp [h2])) st2

/-- C6 amended: the tokenizing regular expression only ever emits numeric
tokens that float conversion accepts, so parse_svg_path never raises: it
succeeds on every input string, malformed numeric text never reaching
float as a token. -/
theorem c6_parse_total (d : List Char) : (parse_svg_path d).isSome = true := by
  unfold parse_svg_path parseTokens
  rcases hf : (tokenize d).foldlM parseStep ⟨none, [], []⟩ with _ | st
  · have := foldlM_some (tokenize d) (tokenize_ok d) ⟨none, [], []⟩
    rw [hf] at this
    exact absurd this (by decide)
  · rfl

end SvgTikz
